import Mathlib

/-!
Verification of the oneprompt prompt-template library.

The implementation (src/index.ts) is embedded shallowly: the regex-based
template scanners become fuel-based recursive functions over the list of
characters of the template string; JavaScript objects and ES Maps become
association lists with insert-or-overwrite update; thrown errors become
an Except value carrying the error message.  JavaScript truthiness on
strings is the test for the empty string, and on optional values the
test for presence, exactly at the places the source relies on it.
-/

/-- The set of whitespace characters recognised by the embedding of the
regex class and of string trimming (ASCII whitespace). -/
def isSpaceChar (c : Char) : Bool :=
  c == ' ' || c == '\t' || c == '\n' || c == '\r' || c == '\x0b' || c == '\x0c'

/-- Embedding of JavaScript string trim on character lists. -/
def trimChars (s : List Char) : List Char :=
  ((s.dropWhile isSpaceChar).reverse.dropWhile isSpaceChar).reverse

/-- Embedding of JavaScript string trim. -/
def trimString (s : String) : String :=
  String.mk (trimChars s.data)

/-- Metadata of a prompt: the required title plus the remaining
string-valued fields. -/
structure PromptMetadata where
  title : String
  extra : List (String × String)
deriving DecidableEq, Repr

/-- A declared template variable (name, required flag, optional default),
as in the PromptVariable type of the source. -/
structure PromptVariable where
  name : String
  required : Bool
  default : Option String
deriving DecidableEq, Repr

/-- A named content part, as in the PromptPart type of the source. -/
structure PromptPart where
  name : String
  content : String
deriving DecidableEq, Repr

/-- A complete prompt document, as in the Prompt type of the source. -/
structure Prompt where
  metadata : PromptMetadata
  vars : List PromptVariable
  template : String
  parts : List PromptPart
deriving DecidableEq, Repr

/-- Insert-or-overwrite update of an association list: the embedding of
assignment to a JavaScript object property and of ES Map insertion (an
existing key keeps its position and gets the new value, a new key is
appended). -/
def mapSet {α : Type} (m : List (String × α)) (k : String) (v : α) : List (String × α) :=
  match m with
  | [] => [(k, v)]
  | (k1, v1) :: rest => if k1 = k then (k, v) :: rest else (k1, v1) :: mapSet rest k v

/-- Reading a property of a JavaScript object whose values may be
undefined: an absent key and a key stored as undefined both read as
undefined (none). -/
def getVar (m : List (String × Option String)) (k : String) : Option String :=
  match List.lookup k m with
  | some v => v
  | none => none

/-- Embedding of the JavaScript `in` operator on an object with string
values. -/
def hasKey (m : List (String × String)) (k : String) : Bool :=
  (List.lookup k m).isSome

/-- The original text of a variable token: the inner text wrapped in
double curly braces. -/
def braceWrap (inner : List Char) : List Char :=
  '\x7b' :: '\x7b' :: (inner ++ ['\x7d', '\x7d'])

/-- Matcher for one variable token at the head of the input: the
embedding of the regex of extractTemplateVariables and
substituteTemplateVariables.  It matches two opening braces, one or more
characters other than a closing brace, then two closing braces, and
returns the inner text and the rest of the input. -/
def matchVarToken (s : List Char) : Option (List Char × List Char) :=
  match s with
  | c1 :: c2 :: rest =>
    if c1 = '\x7b' ∧ c2 = '\x7b' then
      match rest.takeWhile (fun c => !(c = '\x7d')), rest.dropWhile (fun c => !(c = '\x7d')) with
      | i :: is, _ :: d2 :: rest2 =>
        if d2 = '\x7d' then some (i :: is, rest2) else none
      | _, _ => none
    else none
  | _ => none

/-- The replacement the substitution callback produces for one token:
the resolved value when it is truthy (present and a non-empty string),
the original token text otherwise.  Embedding of
`variables[varName] || match` with the inner name trimmed first. -/
def substValue (m : List (String × Option String)) (inner : List Char) : List Char :=
  match getVar m (String.mk (trimChars inner)) with
  | some v => if v = "" then braceWrap inner else v.data
  | none => braceWrap inner

/-- Fuel-based left-to-right scan of substituteTemplateVariables: at each
position, replace a variable token if one matches there, otherwise copy
the character. -/
def substAux (m : List (String × Option String)) : Nat → List Char → List Char
  | 0, s => s
  | _ + 1, [] => []
  | fuel + 1, c :: cs =>
    match matchVarToken (c :: cs) with
    | some (inner, rest) => substValue m inner ++ substAux m fuel rest
    | none => c :: substAux m fuel cs

/-- Embedding of OnePromptUtils.substituteTemplateVariables. -/
def substituteTemplateVariables (template : String) (vars : List (String × Option String)) : String :=
  String.mk (substAux vars (template.data.length + 1) template.data)

/-- Fuel-based scan of extractTemplateVariables: collect the trimmed
inner text of every variable token found left to right. -/
def extractAux : Nat → List Char → List String
  | 0, _ => []
  | _ + 1, [] => []
  | fuel + 1, c :: cs =>
    match matchVarToken (c :: cs) with
    | some (inner, rest) => String.mk (trimChars inner) :: extractAux fuel rest
    | none => extractAux fuel cs

/-- Embedding of OnePromptUtils.extractTemplateVariables. -/
def extractTemplateVariables (template : String) : List String :=
  extractAux (template.data.length + 1) template.data

/-- Decomposition of a template into literal pieces and variable tokens,
following the same scan as the substitution and extraction functions;
used to state what those functions do to each token. -/
def tokenizeAux : Nat → List Char → List (List Char ⊕ List Char)
  | 0, s => [Sum.inl s]
  | _ + 1, [] => []
  | fuel + 1, c :: cs =>
    match matchVarToken (c :: cs) with
    | some (inner, rest) => Sum.inr inner :: tokenizeAux fuel rest
    | none => Sum.inl [c] :: tokenizeAux fuel cs

/-- The token decomposition of a template string. -/
def tokenizePieces (t : String) : List (List Char ⊕ List Char) :=
  tokenizeAux (t.data.length + 1) t.data

/-- The per-token choice the specification describes for substitution:
the resolved value of the trimmed inner name when it is present and a
non-empty string, the original token text (braces included) when the
value is the empty string or the name is absent. -/
def tokenChoice (m : List (String × Option String)) (inner : List Char) : List Char :=
  match getVar m (String.mk (trimChars inner)) with
  | some v => if v ≠ "" then v.data else braceWrap inner
  | none => braceWrap inner

/-- Rendering of a token decomposition with the per-token choice of the
specification. -/
def renderTokensL (m : List (String × Option String)) : List (List Char ⊕ List Char) → List Char
  | [] => []
  | Sum.inl s :: ps => s ++ renderTokensL m ps
  | Sum.inr inner :: ps => tokenChoice m inner ++ renderTokensL m ps

/-- Rebuilding the original text from a token decomposition. -/
def rebuildTokensL : List (List Char ⊕ List Char) → List Char
  | [] => []
  | Sum.inl s :: ps => s ++ rebuildTokensL ps
  | Sum.inr inner :: ps => braceWrap inner ++ rebuildTokensL ps

/-- The contribution of one decomposition piece to the extracted
variable list: the trimmed inner name for a token, nothing for a
literal piece. -/
def tokenPick : (List Char ⊕ List Char) → Option String
  | Sum.inl _ => none
  | Sum.inr inner => some (String.mk (trimChars inner))

/-- A parsed conditional directive: the captured variable name,
comparison literal, show part name and optional else part name. -/
structure Directive where
  varName : String
  equalsValue : String
  showPart : String
  elsePart : Option String
deriving DecidableEq, Repr

/-- Match a literal character sequence at the head of the input and
return the rest. -/
def expectChars : List Char → List Char → Option (List Char)
  | [], s => some s
  | _ :: _, [] => none
  | c :: lit, x :: s => if x = c then expectChars lit s else none

/-- Match one or more characters other than a double quote, followed by
the closing double quote: the embedding of a quoted attribute value in
the directive regex. -/
def matchQuoted (s : List Char) : Option (List Char × List Char) :=
  match s.takeWhile (fun c => !(c = '"')), s.dropWhile (fun c => !(c = '"')) with
  | c :: cs, _ :: rest => some (c :: cs, rest)
  | _, _ => none

/-- Match one or more whitespace characters and return the rest. -/
def skipWs1 : List Char → Option (List Char)
  | [] => none
  | c :: cs => if isSpaceChar c then some (cs.dropWhile isSpaceChar) else none

/-- Match the optional else attribute of a directive (whitespace, the
literal text, a quoted part name). -/
def matchElseAttr (s : List Char) : Option (String × List Char) :=
  (skipWs1 s).bind fun s1 =>
    (expectChars "else=\"".data s1).bind fun s2 =>
      (matchQuoted s2).map fun pr => (String.mk pr.1, pr.2)

/-- The optional else group of the directive regex: its captured part
name (when the group matches) and the position the match continues
from. -/
def elseStep (s : List Char) : Option String × List Char :=
  match matchElseAttr s with
  | some (e, r) => (some e, r)
  | none => (none, s)

/-- Matcher for one conditional directive at the head of the input: the
embedding of the directive regex used by processConditionals and by the
validation loop.  Returns the parsed directive and the rest of the
input. -/
def matchDirective (s : List Char) : Option (Directive × List Char) :=
  (expectChars "<oneprompt:if".data s).bind fun s1 =>
    (skipWs1 s1).bind fun s2 =>
      (expectChars "var=\"".data s2).bind fun s3 =>
        (matchQuoted s3).bind fun pv =>
          (skipWs1 pv.2).bind fun s5 =>
            (expectChars "equals=\"".data s5).bind fun s6 =>
              (matchQuoted s6).bind fun pe =>
                (skipWs1 pe.2).bind fun s8 =>
                  (expectChars "show=\"".data s8).bind fun s9 =>
                    (matchQuoted s9).bind fun psh =>
                      (expectChars "/>".data
                          ((elseStep psh.2).2.dropWhile isSpaceChar)).map fun rest =>
                        (⟨String.mk pv.1, String.mk pe.1, String.mk psh.1,
                          (elseStep psh.2).1⟩, rest)

/-- The name-to-content map built from the parts list, with a later part
of the same name overwriting an earlier one, as the ES Map constructor
does. -/
def buildPartsMap (parts : List PromptPart) : List (String × String) :=
  parts.foldl (fun m p => mapSet m p.name p.content) []

/-- Lookup of a part content by name in the parts map. -/
def partsGet (parts : List PromptPart) (k : String) : Option String :=
  List.lookup k (buildPartsMap parts)

/-- The replacement the conditional callback produces for one directive:
the show part when the resolved value equals the literal, otherwise the
else part if named, and the empty string when no part is selected or the
selected name is not in the parts map.  Embedding of the callback body of
processConditionals. -/
def directiveReplacement (m : List (String × Option String)) (parts : List PromptPart)
    (d : Directive) : String :=
  let varValue := getVar m d.varName
  let partToShow := if varValue == some d.equalsValue then some d.showPart else d.elsePart
  match partToShow with
  | none => ""
  | some pname => (partsGet parts pname).getD ""

/-- Fuel-based left-to-right scan of processConditionals: at each
position, replace a directive if one matches there, otherwise copy the
character. -/
def procCondAux (m : List (String × Option String)) (parts : List PromptPart) :
    Nat → List Char → List Char
  | 0, s => s
  | _ + 1, [] => []
  | fuel + 1, c :: cs =>
    match matchDirective (c :: cs) with
    | some (d, rest) => (directiveReplacement m parts d).data ++ procCondAux m parts fuel rest
    | none => c :: procCondAux m parts fuel cs

/-- Embedding of OnePromptUtils.processConditionals. -/
def processConditionals (template : String) (vars : List (String × Option String))
    (parts : List PromptPart) : String :=
  String.mk (procCondAux vars parts (template.data.length + 1) template.data)

/-- Decomposition of a template into literal pieces and directives
(paired with their original text), following the same scan as
processConditionals. -/
def splitCondAux : Nat → List Char → List (List Char ⊕ (List Char × Directive))
  | 0, s => [Sum.inl s]
  | _ + 1, [] => []
  | fuel + 1, c :: cs =>
    match matchDirective (c :: cs) with
    | some (d, rest) =>
      Sum.inr ((c :: cs).take ((c :: cs).length - rest.length), d) :: splitCondAux fuel rest
    | none => Sum.inl [c] :: splitCondAux fuel cs

/-- The directive decomposition of a template string. -/
def splitPieces (t : String) : List (List Char ⊕ (List Char × Directive)) :=
  splitCondAux (t.data.length + 1) t.data

/-- The content of the named part, or the empty string when no part of
that name exists. -/
def partContentOrEmpty (parts : List PromptPart) (n : String) : String :=
  match partsGet parts n with
  | some c => c
  | none => ""

/-- The per-directive semantics the specification describes: the show
part content under exact string equality of the resolved value with the
literal, otherwise the else part content if an else name is given,
otherwise the empty string; a selected name with no matching part gives
the empty string. -/
def directiveSemantics (m : List (String × Option String)) (parts : List PromptPart)
    (d : Directive) : String :=
  if getVar m d.varName = some d.equalsValue then
    partContentOrEmpty parts d.showPart
  else
    match d.elsePart with
    | some e => partContentOrEmpty parts e
    | none => ""

/-- Rendering of a directive decomposition with the per-directive
semantics of the specification. -/
def renderCondL (m : List (String × Option String)) (parts : List PromptPart) :
    List (List Char ⊕ (List Char × Directive)) → List Char
  | [] => []
  | Sum.inl s :: ps => s ++ renderCondL m parts ps
  | Sum.inr (_, d) :: ps => (directiveSemantics m parts d).data ++ renderCondL m parts ps

/-- Rebuilding the original text from a directive decomposition. -/
def rebuildCondL : List (List Char ⊕ (List Char × Directive)) → List Char
  | [] => []
  | Sum.inl s :: ps => s ++ rebuildCondL ps
  | Sum.inr (orig, _) :: ps => orig ++ rebuildCondL ps

/-- The sequence of directives the regex finds in a template, in order. -/
def directivesOf (t : String) : List Directive :=
  (splitPieces t).filterMap fun pc =>
    match pc with
    | Sum.inr (_, d) => some d
    | Sum.inl _ => none

/-- Loop body of validateAndProcessVariables: iterate the declared
variables in order, taking the input value under key presence, failing
on a missing required variable, and falling back to the default
otherwise. -/
def vapAux (inputVars : List (String × String)) :
    List PromptVariable → List (String × Option String) →
    Except String (List (String × Option String))
  | [], processed => Except.ok processed
  | v :: rest, processed =>
    if hasKey inputVars v.name then
      vapAux inputVars rest (mapSet processed v.name (List.lookup v.name inputVars))
    else if v.required then
      Except.error ("Missing required variable: " ++ v.name)
    else
      vapAux inputVars rest (mapSet processed v.name v.default)

/-- Embedding of OnePromptUtils.validateAndProcessVariables. -/
def validateAndProcessVariables (promptVars : List PromptVariable)
    (inputVars : List (String × String)) : Except String (List (String × Option String)) :=
  vapAux inputVars promptVars []

/-- The resolved mapping described by the specification: one entry per
declared variable, in declaration order, holding the input value under
key presence and the declared default otherwise. -/
def resolveList (promptVars : List PromptVariable) (inputVars : List (String × String)) :
    List (String × Option String) :=
  promptVars.map fun v =>
    (v.name, match List.lookup v.name inputVars with
             | some s => some s
             | none => v.default)

/-- The per-directive validation loop body of OnePrompt.validate: for
each directive in order, check its variable is declared, then its show
part exists, then its else part (when present) exists. -/
def condLoop (vars : List PromptVariable) (partNames : List String) :
    List Directive → Except String Unit
  | [] => Except.ok ()
  | d :: ds =>
    if !(vars.any fun v => v.name == d.varName) then
      Except.error ("Conditional references undefined variable \"" ++ d.varName ++ "\"")
    else if !(partNames.contains d.showPart) then
      Except.error ("Conditional references undefined part \"" ++ d.showPart ++ "\"")
    else
      match d.elsePart with
      | some e =>
        if !(partNames.contains e) then
          Except.error ("Conditional references undefined part \"" ++ e ++ "\"")
        else condLoop vars partNames ds
      | none => condLoop vars partNames ds

/-- The body of OnePrompt.validate before its catch clause: the title
check, the used-variables check, the defaults check, and the directive
loop, in the order of the source. -/
def validateInner (p : Prompt) : Except String Unit :=
  if p.metadata.title = "" then
    Except.error "Title is required in metadata"
  else
    match (extractTemplateVariables p.template).find?
        (fun n => !(p.vars.any fun v => v.name == n)) with
    | some n => Except.error ("Variable \"" ++ n ++ "\" used in template but not declared")
    | none =>
      match p.vars.find? (fun v => !v.required && (v.default == none)) with
      | some v => Except.error ("Optional variable \"" ++ v.name ++ "\" must have a default value")
      | none => condLoop p.vars (p.parts.map PromptPart.name) (directivesOf p.template)

/-- Embedding of OnePrompt.validate, whose catch clause wraps any inner
failure message. -/
def validate (p : Prompt) : Except String Unit :=
  match validateInner p with
  | Except.ok () => Except.ok ()
  | Except.error e => Except.error ("Validation failed: " ++ e)

/-- First failing check 1 message, as the specification words it. -/
def checkTitle (p : Prompt) : Option String :=
  if p.metadata.title = "" then some "Title is required in metadata" else none

/-- First failing check 2 message: the first template variable not among
the declared names. -/
def checkUndeclared (p : Prompt) : Option String :=
  ((extractTemplateVariables p.template).find?
      (fun n => !(p.vars.any fun v => v.name == n))).map
    fun n => "Variable \"" ++ n ++ "\" used in template but not declared"

/-- First failing check 3 message: the first non-required variable with
no default. -/
def checkDefaults (p : Prompt) : Option String :=
  (p.vars.find? (fun v => !v.required && (v.default == none))).map
    fun v => "Optional variable \"" ++ v.name ++ "\" must have a default value"

/-- The first failure among the checks of a single directive, in the
order variable, show part, else part. -/
def directiveFirstError (vars : List PromptVariable) (partNames : List String)
    (d : Directive) : Option String :=
  if !(vars.any fun v => v.name == d.varName) then
    some ("Conditional references undefined variable \"" ++ d.varName ++ "\"")
  else if !(partNames.contains d.showPart) then
    some ("Conditional references undefined part \"" ++ d.showPart ++ "\"")
  else
    match d.elsePart with
    | some e =>
      if !(partNames.contains e) then
        some ("Conditional references undefined part \"" ++ e ++ "\"")
      else none
    | none => none

/-- The first validation error of a document, written as a prioritised
search: title, then undeclared template variables, then missing
defaults, then the directives in order, each directive checked variable
first, then show part, then else part. -/
def firstValidationError (p : Prompt) : Option String :=
  (checkTitle p).orElse fun _ =>
    (checkUndeclared p).orElse fun _ =>
      (checkDefaults p).orElse fun _ =>
        (directivesOf p.template).findSome?
          (directiveFirstError p.vars (p.parts.map PromptPart.name))

/-- A variable element of the generic markup tree: name attribute,
required attribute (a string), optional text content. -/
structure XmlVarNode where
  name : String
  required : String
  text : Option String
deriving DecidableEq, Repr

/-- A part element of the generic markup tree: name attribute and text
content. -/
structure XmlPartNode where
  name : String
  text : String
deriving DecidableEq, Repr

/-- Modelled from the spec: the generic tree/mapping exchanged with the
external markup (XML) subsystem, which is not part of this repository.
Following section 6 of the specification, the external parser and
serializer are taken as inverse codecs between markup text and this
tree, so the facade operations below consume and produce the tree
directly. -/
structure XmlDoc where
  metadata : PromptMetadata
  vars : List XmlVarNode
  parts : List XmlPartNode
  template : String
deriving DecidableEq, Repr

/-- Embedding of OnePrompt.convertToXml: validate, then build the
outbound tree (the xmlObj of the source), wrapping any failure message.
The external serializer that would turn the tree into markup text is
modelled as the identity on trees. -/
def convertToXml (p : Prompt) : Except String XmlDoc :=
  match validate p with
  | Except.error e => Except.error ("Conversion to XML failed: " ++ e)
  | Except.ok () =>
    Except.ok
      { metadata := p.metadata
        vars := p.vars.map fun v =>
          { name := v.name
            required := if v.required then "true" else "false"
            text := v.default }
        parts := p.parts.map fun q => { name := q.name, text := q.content }
        template := p.template }

/-- Embedding of OnePrompt.parseFromXml on the inbound tree: read the
fields of the tree into a Prompt (required is the string comparison with
"true", a falsy part text reads as the empty string), validate it, and
wrap any failure message. -/
def parseFromXml (x : XmlDoc) : Except String Prompt :=
  let p : Prompt :=
    { metadata := { title := x.metadata.title, extra := x.metadata.extra }
      vars := x.vars.map fun v =>
        { name := v.name, required := v.required == "true", default := v.text }
      template := x.template
      parts := x.parts.map fun q =>
        { name := q.name, content := if q.text = "" then "" else q.text } }
  match validate p with
  | Except.error e => Except.error ("Parse failed: " ++ e)
  | Except.ok () => Except.ok p

/-- The body of OnePrompt.renderWithVariables from the point the Prompt
object is in hand: validate, resolve the variables, process the
conditionals on the trimmed template, substitute the remaining
variables. -/
def renderCore (p : Prompt) (inputVars : List (String × String)) : Except String String :=
  match validate p with
  | Except.error e => Except.error e
  | Except.ok () =>
    match validateAndProcessVariables p.vars inputVars with
    | Except.error e => Except.error e
    | Except.ok processedVars =>
      Except.ok (substituteTemplateVariables
        (processConditionals (trimString p.template) processedVars p.parts)
        processedVars)

/-- Embedding of OnePrompt.renderWithVariables: a markup-tree source is
parsed first (the string case of the source, through the modelled
codec), an object source is used directly; any failure of the body is
wrapped with the render message. -/
def renderWithVariables (source : Sum XmlDoc Prompt) (inputVars : List (String × String)) :
    Except String String :=
  match (match source with
         | Sum.inl xml => parseFromXml xml
         | Sum.inr p => Except.ok p) with
  | Except.error e => Except.error ("Render failed: " ++ e)
  | Except.ok p =>
    match renderCore p inputVars with
    | Except.error e => Except.error ("Render failed: " ++ e)
    | Except.ok r => Except.ok r

/-- The candidate variable token starting at position i of the text, as
claim C6 words it: two opening braces, an inner text free of closing
braces, two closing braces; returns the inner text. -/
def candidateInnerAt (s : List Char) (i : Nat) : Option (List Char) :=
  match s.drop i with
  | c1 :: c2 :: rest =>
    if c1 = '\x7b' ∧ c2 = '\x7b' then
      match rest.dropWhile (fun c => !(c = '\x7d')) with
      | _ :: d2 :: _ =>
        if d2 = '\x7d' then some (rest.takeWhile (fun c => !(c = '\x7d'))) else none
      | _ => none
    else none
  | _ => none

/-- The reading of claim C6 taken literally: the trimmed inner text of
every substring of token form, enumerated by start position. -/
def claimExtractAllSubstrings (t : String) : List String :=
  (List.range t.data.length).filterMap fun i =>
    (candidateInnerAt t.data i).map fun inner => String.mk (trimChars inner)

/-- A prompt with an empty title, used to exhibit the error wrapping of
the facade. -/
def promptNoTitle : Prompt :=
  { metadata := { title := "", extra := [] }, vars := [], template := "", parts := [] }

/-- The directive text used to exhibit single-pass, non-recursive
replacement. -/
def demoDirective : String :=
  "<oneprompt:if var=\"t\" equals=\"a\" show=\"p\"/>"

/-- A prompt declaring two variables of the same name, passing every
documented validation check. -/
def promptDupVars : Prompt :=
  { metadata := { title := "T", extra := [] }
    vars := [⟨"a", false, some "x"⟩, ⟨"a", false, some "y"⟩]
    template := "\x7b\x7ba\x7d\x7d"
    parts := [] }

/-- A prompt with two parts of the same name, passing every documented
validation check. -/
def promptDupParts : Prompt :=
  { metadata := { title := "T", extra := [] }
    vars := []
    template := ""
    parts := [⟨"p", "1"⟩, ⟨"p", "2"⟩] }

/-- A prompt violating the directive variable check on its second
directive and the part-existence check on its first directive, used to
exhibit the order in which validate reports them. -/
def promptCheckOrder : Prompt :=
  { metadata := { title := "T", extra := [] }
    vars := [⟨"a", true, none⟩]
    template := "<oneprompt:if var=\"a\" equals=\"x\" show=\"missing\"/><oneprompt:if var=\"b\" equals=\"x\" show=\"ok\"/>"
    parts := [⟨"ok", "c"⟩] }

/-- A validate-passing prompt exercising metadata, both variable kinds,
a part and a template, used as a round-trip example. -/
def promptRoundTrip : Prompt :=
  { metadata := { title := "Test", extra := [("description", "d")] }
    vars := [⟨"name", true, none⟩, ⟨"greeting", false, some "Hello"⟩]
    template := "\x7b\x7bgreeting\x7d\x7d \x7b\x7bname\x7d\x7d!"
    parts := [⟨"p", "c"⟩] }

theorem dropWhile_cons_false {p : Char → Bool} :
    ∀ {l : List Char} {c : Char} {r : List Char}, l.dropWhile p = c :: r → p c = false := by
  intro l
  induction l with
  | nil => intro c r h; simp [List.dropWhile] at h
  | cons a as ih =>
    intro c r h
    rw [List.dropWhile_cons] at h
    by_cases hp : p a
    · simp [hp] at h
      exact ih h
    · simp [hp] at h
      obtain ⟨rfl, -⟩ := h
      simpa using hp

theorem matchVarToken_eq {s inner rest : List Char}
    (h : matchVarToken s = some (inner, rest)) :
    s = braceWrap inner ++ rest ∧ inner ≠ [] ∧ ∀ x ∈ inner, ¬(x = '\x7d') := by
  cases s with
  | nil => simp [matchVarToken] at h
  | cons c1 t =>
    cases t with
    | nil => simp [matchVarToken] at h
    | cons c2 rest0 =>
      simp only [matchVarToken] at h
      split at h
      case isFalse => exact absurd h (by simp)
      case isTrue hbr =>
        split at h
        case h_2 => exact absurd h (by simp)
        case h_1 i is d1 d2 rest2 htk hdw =>
          split at h
          case isFalse => exact absurd h (by simp)
          case isTrue hd2 =>
            have h0 := Option.some.inj h
            have h1 : i :: is = inner := congrArg Prod.fst h0
            have h2 : rest2 = rest := congrArg Prod.snd h0
            subst h1
            subst h2
            have hd1 : d1 = '\x7d' := by
              have := dropWhile_cons_false hdw
              simpa using this
            have hsplit : rest0 = (i :: is) ++ (d1 :: d2 :: rest2) := by
              conv_lhs => rw [← List.takeWhile_append_dropWhile (fun c => !(c = '\x7d')) rest0]
              rw [htk, hdw]
            obtain ⟨hc1, hc2⟩ := hbr
            subst hc1
            subst hc2
            subst hd1
            subst hd2
            refine ⟨?_, by simp, ?_⟩
            · rw [hsplit]
              simp [braceWrap]
            · intro x hx
              have hx2 : x ∈ List.takeWhile (fun c => !(c = '\x7d')) rest0 := htk ▸ hx
              have := List.mem_takeWhile_imp hx2
              simpa using this

theorem substValue_eq_tokenChoice (m : List (String × Option String)) (inner : List Char) :
    substValue m inner = tokenChoice m inner := by
  unfold substValue tokenChoice
  cases h : getVar m (String.mk (trimChars inner)) with
  | none => rfl
  | some v => by_cases hv : v = "" <;> simp [hv]

theorem tokenScanAux (m : List (String × Option String)) :
    ∀ (fuel : Nat) (s : List Char),
      substAux m fuel s = renderTokensL m (tokenizeAux fuel s) ∧
      rebuildTokensL (tokenizeAux fuel s) = s ∧
      extractAux fuel s = (tokenizeAux fuel s).filterMap tokenPick ∧
      ∀ inner, Sum.inr inner ∈ tokenizeAux fuel s → inner ≠ [] ∧ ∀ x ∈ inner, ¬(x = '\x7d') := by
  intro fuel
  induction fuel with
  | zero =>
    intro s
    refine ⟨?_, ?_, ?_, ?_⟩ <;>
      simp [substAux, tokenizeAux, renderTokensL, rebuildTokensL, extractAux, tokenPick]
  | succ fuel ih =>
    intro s
    cases s with
    | nil =>
      refine ⟨?_, ?_, ?_, ?_⟩ <;>
        simp [substAux, tokenizeAux, renderTokensL, rebuildTokensL, extractAux]
    | cons c cs =>
      cases h : matchVarToken (c :: cs) with
      | none =>
        obtain ⟨ih1, ih2, ih3, ih4⟩ := ih cs
        refine ⟨?_, ?_, ?_, ?_⟩
        · simp [substAux, tokenizeAux, h, renderTokensL, ih1]
        · simp [tokenizeAux, h, rebuildTokensL, ih2]
        · simp [extractAux, tokenizeAux, h, tokenPick, ih3]
        · intro inner hmem
          simp only [tokenizeAux, h, List.mem_cons] at hmem
          rcases hmem with hmem | hmem
          · exact absurd hmem (by simp)
          · exact ih4 inner hmem
      | some pr =>
        obtain ⟨inner0, rest⟩ := pr
        obtain ⟨hs, hne, hmem0⟩ := matchVarToken_eq h
        obtain ⟨ih1, ih2, ih3, ih4⟩ := ih rest
        refine ⟨?_, ?_, ?_, ?_⟩
        · simp [substAux, tokenizeAux, h, renderTokensL, ih1, substValue_eq_tokenChoice]
        · simp only [tokenizeAux, h, rebuildTokensL, ih2]
          exact hs.symm
        · simp [extractAux, tokenizeAux, h, tokenPick, ih3]
        · intro inner hmem
          simp only [tokenizeAux, h, List.mem_cons] at hmem
          rcases hmem with hmem | hmem
          · obtain rfl : inner = inner0 := by injection hmem
            exact ⟨hne, hmem0⟩
          · exact ih4 inner hmem

theorem expectChars_suffix : ∀ {lit s r : List Char}, expectChars lit s = some r → r <:+ s := by
  intro lit
  induction lit with
  | nil =>
    intro s r h
    simp only [expectChars, Option.some.injEq] at h
    subst h
    exact List.suffix_refl _
  | cons c lit ih =>
    intro s r h
    cases s with
    | nil => simp [expectChars] at h
    | cons x xs =>
      simp only [expectChars] at h
      split at h
      · exact (ih h).trans (List.suffix_cons x xs)
      · exact absurd h (by simp)

theorem dropWhile_suffix_of (p : Char → Bool) : ∀ l : List Char, l.dropWhile p <:+ l := by
  intro l
  induction l with
  | nil => simp [List.dropWhile]
  | cons a as ih =>
    rw [List.dropWhile_cons]
    by_cases hp : p a
    · simp only [hp, if_true]
      exact ih.trans (List.suffix_cons a as)
    · simp [hp]

theorem skipWs1_suffix {s r : List Char} (h : skipWs1 s = some r) : r <:+ s := by
  cases s with
  | nil => simp [skipWs1] at h
  | cons c cs =>
    simp only [skipWs1] at h
    split at h
    · obtain rfl : cs.dropWhile isSpaceChar = r := Option.some.inj h
      exact (dropWhile_suffix_of isSpaceChar cs).trans (List.suffix_cons c cs)
    · exact absurd h (by simp)

theorem matchQuoted_suffix {s q r : List Char} (h : matchQuoted s = some (q, r)) : r <:+ s := by
  unfold matchQuoted at h
  split at h
  case h_1 c cs x rest htk hdw =>
    have h0 := Option.some.inj h
    have h2 : rest = r := congrArg Prod.snd h0
    subst h2
    have hr : rest <:+ s.dropWhile (fun c => !(c = '"')) := by
      rw [hdw]
      exact List.suffix_cons x rest
    exact hr.trans (dropWhile_suffix_of _ s)
  case h_2 => exact absurd h (by simp)

theorem matchElseAttr_suffix {s : List Char} {e : String} {r : List Char}
    (h : matchElseAttr s = some (e, r)) : r <:+ s := by
  unfold matchElseAttr at h
  rw [Option.bind_eq_some] at h
  obtain ⟨s1, h1, h⟩ := h
  rw [Option.bind_eq_some] at h
  obtain ⟨s2, h2, h⟩ := h
  rw [Option.map_eq_some'] at h
  obtain ⟨pr, h3, h4⟩ := h
  obtain ⟨q, s3⟩ := pr
  have hr : s3 = r := congrArg Prod.snd h4
  subst hr
  exact ((matchQuoted_suffix h3).trans (expectChars_suffix h2)).trans (skipWs1_suffix h1)

theorem elseStep_suffix (s : List Char) : (elseStep s).2 <:+ s := by
  unfold elseStep
  cases h : matchElseAttr s with
  | none => exact List.suffix_refl s
  | some pr =>
    obtain ⟨e, r⟩ := pr
    exact matchElseAttr_suffix h

theorem matchDirective_suffix {s : List Char} {d : Directive} {rest : List Char}
    (h : matchDirective s = some (d, rest)) : rest <:+ s := by
  unfold matchDirective at h
  rw [Option.bind_eq_some] at h
  obtain ⟨s1, h1, h⟩ := h
  rw [Option.bind_eq_some] at h
  obtain ⟨s2, h2, h⟩ := h
  rw [Option.bind_eq_some] at h
  obtain ⟨s3, h3, h⟩ := h
  rw [Option.bind_eq_some] at h
  obtain ⟨pv, h4, h⟩ := h
  obtain ⟨v, s4⟩ := pv
  rw [Option.bind_eq_some] at h
  obtain ⟨s5, h5, h⟩ := h
  rw [Option.bind_eq_some] at h
  obtain ⟨s6, h6, h⟩ := h
  rw [Option.bind_eq_some] at h
  obtain ⟨pe, h7, h⟩ := h
  obtain ⟨ev, s7⟩ := pe
  rw [Option.bind_eq_some] at h
  obtain ⟨s8, h8, h⟩ := h
  rw [Option.bind_eq_some] at h
  obtain ⟨s9, h9, h⟩ := h
  rw [Option.bind_eq_some] at h
  obtain ⟨psh, h10, h⟩ := h
  obtain ⟨shv, s10⟩ := psh
  rw [Option.map_eq_some'] at h
  obtain ⟨r12, h12, h13⟩ := h
  have hr : r12 = rest := congrArg Prod.snd h13
  subst hr
  have hq4 : s4 <:+ s3 := matchQuoted_suffix h4
  have hq7 : s7 <:+ s6 := matchQuoted_suffix h7
  have hq10 : s10 <:+ s9 := matchQuoted_suffix h10
  exact (((expectChars_suffix h12).trans
      ((dropWhile_suffix_of isSpaceChar _).trans (elseStep_suffix s10))).trans
    (((((((hq10.trans (expectChars_suffix h9)).trans (skipWs1_suffix h8)).trans
      hq7).trans (expectChars_suffix h6)).trans (skipWs1_suffix h5)).trans
      (hq4.trans (expectChars_suffix h3))).trans
      ((skipWs1_suffix h2).trans (expectChars_suffix h1))))

theorem suffix_take_append {r s : List Char} (h : r <:+ s) :
    s.take (s.length - r.length) ++ r = s := by
  obtain ⟨pre, rfl⟩ := h
  have hlen : (pre ++ r).length - r.length = pre.length := by
    simp
  rw [hlen, List.take_left]

theorem directiveReplacement_eq (m : List (String × Option String)) (parts : List PromptPart)
    (d : Directive) :
    directiveReplacement m parts d = directiveSemantics m parts d := by
  by_cases hv : getVar m d.varName = some d.equalsValue
  · have hb : (getVar m d.varName == some d.equalsValue) = true := by
      simp [hv]
    cases hp : partsGet parts d.showPart <;>
      simp [directiveReplacement, directiveSemantics, partContentOrEmpty, hb, hv, hp]
  · have hb : (getVar m d.varName == some d.equalsValue) = false := by
      simpa using hv
    cases he : d.elsePart with
    | none =>
      simp [directiveReplacement, directiveSemantics, partContentOrEmpty, hb, hv, he]
    | some e =>
      cases hp : partsGet parts e <;>
        simp [directiveReplacement, directiveSemantics, partContentOrEmpty, hb, hv, he, hp]

theorem condScanAux (m : List (String × Option String)) (parts : List PromptPart) :
    ∀ (fuel : Nat) (s : List Char),
      procCondAux m parts fuel s = renderCondL m parts (splitCondAux fuel s) ∧
      rebuildCondL (splitCondAux fuel s) = s := by
  intro fuel
  induction fuel with
  | zero =>
    intro s
    constructor <;> simp [procCondAux, splitCondAux, renderCondL, rebuildCondL]
  | succ fuel ih =>
    intro s
    cases s with
    | nil =>
      constructor <;> simp [procCondAux, splitCondAux, renderCondL, rebuildCondL]
    | cons c cs =>
      cases h : matchDirective (c :: cs) with
      | none =>
        obtain ⟨ih1, ih2⟩ := ih cs
        constructor
        · simp [procCondAux, splitCondAux, h, renderCondL, ih1]
        · simp [splitCondAux, h, rebuildCondL, ih2]
      | some pr =>
        obtain ⟨d, rest⟩ := pr
        obtain ⟨ih1, ih2⟩ := ih rest
        constructor
        · simp [procCondAux, splitCondAux, h, renderCondL, ih1, directiveReplacement_eq]
        · simp only [splitCondAux, h, rebuildCondL, ih2]
          exact suffix_take_append (matchDirective_suffix h)

theorem mapSet_fresh {α : Type} {m : List (String × α)} {k : String} (v : α)
    (h : k ∉ m.map Prod.fst) : mapSet m k v = m ++ [(k, v)] := by
  induction m with
  | nil => rfl
  | cons p rest ih =>
    obtain ⟨k1, v1⟩ := p
    simp only [List.map_cons, List.mem_cons] at h
    push_neg at h
    obtain ⟨h1, h2⟩ := h
    simp only [mapSet]
    rw [if_neg fun he => h1 he.symm, ih h2]
    simp

theorem vapAux_ok (input : List (String × String)) :
    ∀ (pv : List PromptVariable) (acc : List (String × Option String)),
      (∀ v ∈ pv, v.required = true → hasKey input v.name = true) →
      (∀ v ∈ pv, v.name ∉ acc.map Prod.fst) →
      (pv.map PromptVariable.name).Nodup →
      vapAux input pv acc = Except.ok (acc ++ resolveList pv input) := by
  intro pv
  induction pv with
  | nil =>
    intro acc _ _ _
    simp [vapAux, resolveList]
  | cons v rest ih =>
    intro acc hreq hfresh hnodup
    have hfv : v.name ∉ acc.map Prod.fst := hfresh v (by simp)
    have hvrest : v.name ∉ rest.map PromptVariable.name := by
      have := hnodup
      simp only [List.map_cons, List.nodup_cons] at this
      exact this.1
    have hfresh2 : ∀ u ∈ rest, u.name ∉ (acc ++ [(v.name, List.lookup v.name input)]).map Prod.fst ∧
        u.name ∉ (acc ++ [(v.name, v.default)]).map Prod.fst := by
      intro u hu
      have hne : u.name ≠ v.name := by
        intro he
        exact hvrest (he ▸ List.mem_map_of_mem PromptVariable.name hu)
      have hna : u.name ∉ acc.map Prod.fst := hfresh u (by simp [hu])
      constructor <;> simp [hna, hne]
    have hreq2 : ∀ u ∈ rest, u.required = true → hasKey input u.name = true :=
      fun u hu => hreq u (by simp [hu])
    have hnodup2 : (rest.map PromptVariable.name).Nodup := by
      simp only [List.map_cons, List.nodup_cons] at hnodup
      exact hnodup.2
    simp only [vapAux]
    by_cases hk : hasKey input v.name
    · rw [if_pos hk, mapSet_fresh _ hfv,
        ih (acc ++ [(v.name, List.lookup v.name input)]) hreq2 (fun u hu => (hfresh2 u hu).1) hnodup2]
      obtain ⟨s, hs⟩ := Option.isSome_iff_exists.mp hk
      simp [resolveList, hs]
    · rw [if_neg hk]
      have hlk : List.lookup v.name input = none := by
        cases hcase : List.lookup v.name input with
        | none => rfl
        | some s => exact absurd (by simp [hasKey, hcase]) hk
      by_cases hr : v.required
      · exact absurd (hreq v (by simp) hr) hk
      · rw [if_neg hr, mapSet_fresh _ hfv,
          ih (acc ++ [(v.name, v.default)]) hreq2 (fun u hu => (hfresh2 u hu).2) hnodup2]
        simp [resolveList, hlk]

theorem vapAux_err (input : List (String × String)) :
    ∀ (pv : List PromptVariable) (v : PromptVariable),
      pv.find? (fun u => u.required && !(hasKey input u.name)) = some v →
      ∀ acc, vapAux input pv acc = Except.error ("Missing required variable: " ++ v.name) := by
  intro pv
  induction pv with
  | nil =>
    intro v h
    simp [List.find?] at h
  | cons u rest ih =>
    intro v h acc
    by_cases hp : (u.required && !(hasKey input u.name)) = true
    · have hfu : List.find? (fun w => w.required && !(hasKey input w.name)) (u :: rest) =
          some u := List.find?_cons_of_pos rest hp
      obtain rfl : u = v := Option.some.inj (hfu.symm.trans h)
      obtain ⟨hr, hk⟩ := Bool.and_eq_true_iff.mp hp
      have hk2 : ¬(hasKey input u.name = true) := by simpa using hk
      simp only [vapAux]
      rw [if_neg hk2, if_pos hr]
    · have hfr : List.find? (fun w => w.required && !(hasKey input w.name)) (u :: rest) =
          List.find? (fun w => w.required && !(hasKey input w.name)) rest :=
        List.find?_cons_of_neg rest (by simpa using hp)
      have h := hfr.symm.trans h
      simp only [vapAux]
      by_cases hk : hasKey input u.name
      · rw [if_pos hk]
        exact ih v h _
      · have hr : ¬(u.required = true) := by
          intro hr
          exact hp (by simp [hr, hk])
        rw [if_neg hk, if_neg hr]
        exact ih v h _

theorem condLoop_eq (vars : List PromptVariable) (partNames : List String) :
    ∀ ds : List Directive,
      condLoop vars partNames ds =
        match ds.findSome? (directiveFirstError vars partNames) with
        | some e => Except.error e
        | none => Except.ok () := by
  intro ds
  induction ds with
  | nil => simp [condLoop, List.findSome?_nil]
  | cons d ds ih =>
    rw [List.findSome?_cons]
    by_cases h1 : (vars.any fun v => v.name == d.varName) = true
    · by_cases h2 : (partNames.contains d.showPart) = true
      · have hm2 : d.showPart ∈ partNames := by simpa using h2
        cases he : d.elsePart with
        | some e =>
          by_cases h3 : (partNames.contains e) = true
          · have hm3 : e ∈ partNames := by simpa using h3
            simp [condLoop, directiveFirstError, h1, hm2, he, hm3, ih]
          · have hm3 : e ∉ partNames := by simpa using h3
            simp [condLoop, directiveFirstError, h1, hm2, he, hm3]
        | none => simp [condLoop, directiveFirstError, h1, hm2, he, ih]
      · have hm2 : d.showPart ∉ partNames := by simpa using h2
        simp [condLoop, directiveFirstError, h1, hm2]
    · have h1b : (vars.any fun v => v.name == d.varName) = false := by simpa using h1
      simp [condLoop, directiveFirstError, h1b]

theorem map_map_id {α β : Type} (f : α → β) (g : β → α) :
    ∀ l : List α, (∀ a ∈ l, g (f a) = a) → (l.map f).map g = l := by
  intro l
  induction l with
  | nil => intro _; rfl
  | cons a as ih =>
    intro h
    simp only [List.map_cons]
    rw [h a (by simp), ih fun x hx => h x (by simp [hx])]

/-- Claim C1: substituteTemplateVariables replaces each variable token
whose trimmed inner name resolves to a present, non-empty string by that
value, and leaves the original token text (braces included) unchanged
when the resolved value is the empty string or the name is absent; in
particular substituting on "Hi \x7b\x7bn\x7d\x7d!" with n bound to the
empty string returns the template unchanged.  Stated through the token
decomposition of the template, which rebuilds to the original string. -/
theorem substituteTemplateVariables_spec :
    (∀ (t : String) (m : List (String × Option String)),
      substituteTemplateVariables t m = String.mk (renderTokensL m (tokenizePieces t)) ∧
      String.mk (rebuildTokensL (tokenizePieces t)) = t) ∧
    substituteTemplateVariables "Hi \x7b\x7bn\x7d\x7d!" [("n", some "")] =
      "Hi \x7b\x7bn\x7d\x7d!" := by
  refine ⟨fun t m => ⟨?_, ?_⟩, ?_⟩
  · exact congrArg String.mk (tokenScanAux m (t.data.length + 1) t.data).1
  · show String.mk (rebuildTokensL (tokenizeAux (t.data.length + 1) t.data)) = t
    rw [(tokenScanAux [] (t.data.length + 1) t.data).2.1]
  · rfl

/-- Claim C6 (counterexample): on the template consisting of an extra
opening brace before a token, the function returns only the leftmost
match, while the claim, which asks for every substring of token form by
start position, would require two entries. -/
theorem extractTemplateVariables_cex :
    extractTemplateVariables "\x7b\x7b\x7ba\x7d\x7d" = ["\x7ba"] ∧
    claimExtractAllSubstrings "\x7b\x7b\x7ba\x7d\x7d" = ["\x7ba", "a"] ∧
    extractTemplateVariables "\x7b\x7b\x7ba\x7d\x7d" ≠
      claimExtractAllSubstrings "\x7b\x7b\x7ba\x7d\x7d" :=
  ⟨rfl, rfl, by decide⟩

/-- Claim C6 (amended): extractTemplateVariables returns, in order and
including duplicates, the trimmed inner text of the tokens found by a
single left-to-right non-overlapping scan (each further match starting
after the end of the previous one), where each token has a non-empty
inner text free of closing braces; the decomposition rebuilds to the
original template, and a template with no token yields the empty
sequence. -/
theorem extractTemplateVariables_scan :
    ∀ t : String,
      extractTemplateVariables t = (tokenizePieces t).filterMap tokenPick ∧
      String.mk (rebuildTokensL (tokenizePieces t)) = t ∧
      (∀ inner, Sum.inr inner ∈ tokenizePieces t →
        inner ≠ [] ∧ ∀ x ∈ inner, ¬(x = '\x7d')) ∧
      extractTemplateVariables "" = [] := by
  intro t
  obtain ⟨-, h2, h3, h4⟩ := tokenScanAux [] (t.data.length + 1) t.data
  refine ⟨h3, ?_, h4, rfl⟩
  show String.mk (rebuildTokensL (tokenizeAux (t.data.length + 1) t.data)) = t
  rw [h2]

theorem extractTemplateVariables_scan_witness :
    extractTemplateVariables "Hi \x7b\x7b n \x7d\x7d!" = ["n"] ∧
    (' ' :: 'n' :: [' '] ≠ ([] : List Char)) := by
  constructor
  · rw [(extractTemplateVariables_scan "Hi \x7b\x7b n \x7d\x7d!").1]
    rfl
  · have ht : tokenizePieces "Hi \x7b\x7b n \x7d\x7d!" =
        [Sum.inl ['H'], Sum.inl ['i'], Sum.inl [' '], Sum.inr [' ', 'n', ' '], Sum.inl ['!']] := by
      decide
    exact ((extractTemplateVariables_scan "Hi \x7b\x7b n \x7d\x7d!").2.2.1
      (' ' :: 'n' :: [' ']) (by rw [ht]; simp)).1

/-- Claim C3: processConditionals replaces each recognized directive by
the show part content under exact string equality of the resolved value
with the literal, by the else part content when they differ and an else
name is given, and by the empty string when they differ with no else;
a selected part name matching no part gives the empty string rather
than a failure.  Stated through the directive decomposition of the
template, which rebuilds to the original string. -/
theorem processConditionals_spec :
    ∀ (t : String) (m : List (String × Option String)) (parts : List PromptPart),
      processConditionals t m parts = String.mk (renderCondL m parts (splitPieces t)) ∧
      String.mk (rebuildCondL (splitPieces t)) = t := by
  intro t m parts
  obtain ⟨h1, h2⟩ := condScanAux m parts (t.data.length + 1) t.data
  refine ⟨congrArg String.mk h1, ?_⟩
  show String.mk (rebuildCondL (splitCondAux (t.data.length + 1) t.data)) = t
  rw [h2]

/-- Claim C9 (counterexample): on the exact template of the claim, whose
tag is "if" rather than "oneprompt:if", the directive regex finds no
match and the template is returned unchanged, not "Y". -/
theorem processConditionals_if_tag_cex :
    processConditionals "<if var=\"t\" equals=\"a\" show=\"p1\" else=\"p2\"/>"
        [("t", some "b")] [⟨"p1", "X"⟩, ⟨"p2", "Y"⟩] =
      "<if var=\"t\" equals=\"a\" show=\"p1\" else=\"p2\"/>" ∧
    processConditionals "<if var=\"t\" equals=\"a\" show=\"p1\" else=\"p2\"/>"
        [("t", some "b")] [⟨"p1", "X"⟩, ⟨"p2", "Y"⟩] ≠ "Y" :=
  ⟨rfl, by decide⟩

/-- Claim C9 (amended): with the directive written with its actual tag
"oneprompt:if", the same resolved values and parts produce "Y". -/
theorem processConditionals_oneprompt_tag :
    processConditionals "<oneprompt:if var=\"t\" equals=\"a\" show=\"p1\" else=\"p2\"/>"
        [("t", some "b")] [⟨"p1", "X"⟩, ⟨"p2", "Y"⟩] = "Y" := rfl

/-- Claim C10: validate does not enforce name uniqueness: a prompt with
two variables of the same name, and a prompt with two parts of the same
name, both passing every documented check, validate without error. -/
theorem validate_duplicate_names :
    (promptDupVars.vars.map PromptVariable.name = ["a", "a"] ∧
      validate promptDupVars = Except.ok ()) ∧
    (promptDupParts.parts.map PromptPart.name = ["p", "p"] ∧
      validate promptDupParts = Except.ok ()) :=
  ⟨⟨rfl, rfl⟩, ⟨rfl, rfl⟩⟩

/-- Claim C2: under unique declared names, validateAndProcessVariables
returns, when every required name is a key of the input, the mapping
with exactly the declared names as keys, each bound to the input value
under key presence and to the declared default otherwise (input keys
outside the declared names are ignored); and it fails naming the first
declared variable in order that is required and absent from the
input. -/
theorem validateAndProcessVariables_spec :
    ∀ (pv : List PromptVariable) (input : List (String × String)),
      (pv.map PromptVariable.name).Nodup →
      ((∀ v ∈ pv, v.required = true → hasKey input v.name = true) →
          validateAndProcessVariables pv input = Except.ok (resolveList pv input) ∧
          (resolveList pv input).map Prod.fst = pv.map PromptVariable.name) ∧
      (∀ v, pv.find? (fun u => u.required && !(hasKey input u.name)) = some v →
          validateAndProcessVariables pv input =
            Except.error ("Missing required variable: " ++ v.name)) := by
  intro pv input hnodup
  constructor
  · intro hreq
    constructor
    · simpa [validateAndProcessVariables] using
        vapAux_ok input pv [] hreq (by simp) hnodup
    · simp [resolveList]
  · intro v hv
    exact vapAux_err input pv v hv []

theorem validateAndProcessVariables_spec_witness :
    validateAndProcessVariables
        [⟨"name", true, none⟩, ⟨"greeting", false, some "Hello"⟩]
        [("name", "Alice"), ("extra", "z")] =
      Except.ok [("name", some "Alice"), ("greeting", some "Hello")] := by
  have h := ((validateAndProcessVariables_spec
      [⟨"name", true, none⟩, ⟨"greeting", false, some "Hello"⟩]
      [("name", "Alice"), ("extra", "z")] (by decide)).1 (by decide)).1
  rw [h]
  rfl

/-- Claim C8: replacement is a single left-to-right pass and is not
recursive: a template consisting of two directives has both replaced in
one pass, and the selected part content c, for every string c including
directive-shaped text, is inserted verbatim and never itself replaced by
any part content. -/
theorem processConditionals_single_pass :
    ∀ c : String,
      processConditionals (demoDirective ++ demoDirective) [("t", some "a")] [⟨"p", c⟩] =
        c ++ c := by
  intro c
  obtain ⟨cd⟩ := c
  have h := (condScanAux [("t", some "a")] [⟨"p", String.mk cd⟩]
      ((demoDirective ++ demoDirective).data.length + 1) (demoDirective ++ demoDirective).data).1
  have hsplit : splitCondAux ((demoDirective ++ demoDirective).data.length + 1)
      (demoDirective ++ demoDirective).data =
      [Sum.inr (demoDirective.data, ⟨"t", "a", "p", none⟩),
       Sum.inr (demoDirective.data, ⟨"t", "a", "p", none⟩)] := by decide
  have h2 : processConditionals (demoDirective ++ demoDirective) [("t", some "a")]
      [⟨"p", String.mk cd⟩] =
      String.mk (renderCondL [("t", some "a")] [⟨"p", String.mk cd⟩]
        (splitCondAux ((demoDirective ++ demoDirective).data.length + 1)
          (demoDirective ++ demoDirective).data)) := congrArg String.mk h
  rw [h2, hsplit]
  simp only [renderCondL, directiveSemantics, partContentOrEmpty, partsGet, buildPartsMap,
    mapSet, getVar, List.lookup, List.foldl]
  norm_num
  rfl

/-- Claim C4 (counterexample): a render of a document with an empty
title surfaces with two operation tags stacked in the message, the
validate wrapper inside the render wrapper, so the error reaching the
caller of renderWithVariables carries more than one operation tag. -/
theorem renderWithVariables_double_wrap_cex :
    renderWithVariables (Sum.inr promptNoTitle) [] =
      Except.error ("Render failed: " ++
        ("Validation failed: " ++ "Title is required in metadata")) := rfl

/-- Claim C4 (amended): each facade boundary wraps whatever message
reaches it, so nested facade calls stack their tags: renderWithVariables
wraps validate failures, which already carry the validation tag, and
wraps parse failures of a markup source likewise; only failures raised
directly in its own body, such as a missing required input, are wrapped
exactly once. -/
theorem renderWithVariables_wrapping :
    (∀ (p : Prompt) (input : List (String × String)) (e : String),
        validate p = Except.error e →
        renderWithVariables (Sum.inr p) input = Except.error ("Render failed: " ++ e)) ∧
    (∀ (p : Prompt) (e : String), validate p = Except.error e →
        ∃ root, e = "Validation failed: " ++ root) ∧
    (∀ (p : Prompt) (input : List (String × String)) (e : String),
        validate p = Except.ok () →
        validateAndProcessVariables p.vars input = Except.error e →
        renderWithVariables (Sum.inr p) input = Except.error ("Render failed: " ++ e)) ∧
    (∀ (x : XmlDoc) (input : List (String × String)) (e : String),
        parseFromXml x = Except.error e →
        renderWithVariables (Sum.inl x) input = Except.error ("Render failed: " ++ e)) := by
  refine ⟨?_, ?_, ?_, ?_⟩
  · intro p input e h
    simp [renderWithVariables, renderCore, h]
  · intro p e h
    unfold validate at h
    cases hv : validateInner p with
    | ok u =>
      rw [hv] at h
      cases u
      exact absurd h (by simp)
    | error e2 =>
      rw [hv] at h
      exact ⟨e2, (Except.error.inj h).symm⟩
  · intro p input e h1 h2
    simp [renderWithVariables, renderCore, h1, h2]
  · intro x input e h
    simp [renderWithVariables, h]

theorem renderWithVariables_wrapping_witness :
    renderWithVariables (Sum.inr promptNoTitle) [] =
      Except.error ("Render failed: " ++ "Validation failed: Title is required in metadata") :=
  (renderWithVariables_wrapping).1 promptNoTitle []
    "Validation failed: Title is required in metadata" rfl

theorem validateInner_eq (p : Prompt) :
    validateInner p =
      match firstValidationError p with
      | some e => Except.error e
      | none => Except.ok () := by
  unfold validateInner firstValidationError checkTitle checkUndeclared checkDefaults
  by_cases h1 : p.metadata.title = ""
  · simp [h1]
  · rw [if_neg h1, if_neg h1]
    cases h2 : (extractTemplateVariables p.template).find?
        (fun n => !(p.vars.any fun v => v.name == n)) with
    | some n => simp [h2, Option.orElse]
    | none =>
      cases h3 : p.vars.find? (fun v => !v.required && (v.default == none)) with
      | some v => simp [h2, h3, Option.orElse]
      | none =>
        simp only [h2, h3, Option.map_none', Option.orElse, Option.none_orElse]
        rw [condLoop_eq]

/-- Claim C5 (counterexample): validate interleaves the directive
variable check and the part-existence checks per directive rather than
settling check 4 over all directives first: on promptCheckOrder, whose
second directive references the undeclared variable "b" while the first
directive references the missing part "missing", the reported error is
the part error of the first directive, not the variable error the claim
would require. -/
theorem validate_check_order_cex :
    validate promptCheckOrder =
      Except.error "Validation failed: Conditional references undefined part \"missing\"" ∧
    (directivesOf promptCheckOrder.template).any
      (fun d => !(promptCheckOrder.vars.any fun v => v.name == d.varName)) = true :=
  ⟨rfl, rfl⟩

/-- Claim C5 (amended): validate runs the title check, then the
used-variables check, then the defaults check, and then scans the
directives in template order, checking for each directive in turn its
variable, its show part, and its else part, stopping at the first
failure; equivalently, its result is determined by the prioritised
first-error search firstValidationError. -/
theorem validate_first_error_eq :
    ∀ p : Prompt,
      validate p =
        match firstValidationError p with
        | some e => Except.error ("Validation failed: " ++ e)
        | none => Except.ok () := by
  intro p
  unfold validate
  rw [validateInner_eq]
  cases firstValidationError p <;> simp

/-- Claim C7: for every document that passes validate, serializing to
the markup tree and parsing back reproduces the document exactly: same
metadata, variables, parts and template. -/
theorem parse_convert_roundtrip :
    ∀ p : Prompt, validate p = Except.ok () →
      (convertToXml p).bind parseFromXml = Except.ok p := by
  intro p hv
  obtain ⟨md, vs, tp, ps⟩ := p
  obtain ⟨ti, ex⟩ := md
  have hb1 : (("false" : String) == "true") = false := by decide
  have hb2 : (("true" : String) == "true") = true := by decide
  have hvars : ((vs.map fun v =>
        XmlVarNode.mk v.name (if v.required then "true" else "false") v.default).map
      fun v => PromptVariable.mk v.name (v.required == "true") v.text) = vs := by
    apply map_map_id
    intro v _
    cases v with
    | mk n r d => cases r <;> simp [hb1, hb2]
  have hparts : ((ps.map fun q => XmlPartNode.mk q.name q.content).map
      fun q => PromptPart.mk q.name (if q.text = "" then "" else q.text)) = ps := by
    apply map_map_id
    intro q _
    cases q with
    | mk n c =>
      by_cases hc : c = "" <;> simp [hc]
  unfold convertToXml
  rw [hv]
  show parseFromXml _ = _
  unfold parseFromXml
  simp only [hvars, hparts]
  rw [hv]

theorem parse_convert_roundtrip_witness :
    validate promptRoundTrip = Except.ok () ∧
    (convertToXml promptRoundTrip).bind parseFromXml = Except.ok promptRoundTrip :=
  ⟨rfl, parse_convert_roundtrip promptRoundTrip rfl⟩
